import Mathlib

/-!
# Verification of the Wi-Fi Analyzer telemetry / diagnostics core

Shallow embedding of the state and decision logic of `wifi_super_gui.py`:
the diagnostic rule engine (`WiFiGUI.run_health_check`), the monitoring
loop (`MonitorThread.run`), the threshold notifier
(`MonitorThread._check_thresholds`) and log rotation (`rotate_log`).
Python floats that can be NaN and values that can be `None` are embedded
as `Option ℚ` / `Option ℤ` (with `none` for the absent / NaN case);
strings keep Python truthiness (`""` is falsy).
-/

namespace WifiAnalyzer

/-! ## Severity and issue deduplication (run_health_check, lines 1868-1877)

The engine collects `(severity, issue_id)` pairs into the list `issues`
and then folds them into the insertion-ordered dict `unique`, keeping the
worst severity per `issue_id` using
`order = {"PASS": 0, "INFO": 1, "WARN": 2, "FAIL": 3}`.
-/

inductive Severity where
  | PASS
  | INFO
  | WARN
  | FAIL
deriving DecidableEq, Repr

/-- `order = {"PASS": 0, "INFO": 1, "WARN": 2, "FAIL": 3}` (line 1875). -/
def Severity.order : Severity → Nat
  | .PASS => 0
  | .INFO => 1
  | .WARN => 2
  | .FAIL => 3

abbrev IssueId := String

/-- One step of the dedup fold: the Python dict `unique` is an
insertion-ordered association list; an absent key is appended at the end,
a present key has its value replaced in place when the incoming severity
ranks strictly higher (`if order[sev] > order[unique[iid]]`). -/
def updateIssue : List (IssueId × Severity) → Severity → IssueId → List (IssueId × Severity)
  | [], sev, iid => [(iid, sev)]
  | (k, v) :: rest, sev, iid =>
    if k = iid then (k, if v.order < sev.order then sev else v) :: rest
    else (k, v) :: updateIssue rest sev iid

/-- `unique` after folding the whole `issues` list (lines 1869-1877). -/
def mergeIssues (issues : List (Severity × IssueId)) : List (IssueId × Severity) :=
  issues.foldl (fun acc p => updateIssue acc p.1 p.2) []

/-- `self.current_issues = [(unique[iid], iid) for iid in unique]` (line 1880). -/
def currentIssues (issues : List (Severity × IssueId)) : List (Severity × IssueId) :=
  (mergeIssues issues).map (fun p => (p.2, p.1))

/-- Dict lookup `unique[x]` (first — and, keys being unique, only — entry). -/
def getSev : List (IssueId × Severity) → IssueId → Option Severity
  | [], _ => none
  | (k, v) :: rest, x => if k = x then some v else getSev rest x

/-- Dict membership `x in unique`. -/
def hasKey (acc : List (IssueId × Severity)) (x : IssueId) : Bool :=
  acc.any (fun p => p.1 = x)

/-- Number of entries of `acc` carrying key `x`. -/
def keyCount (acc : List (IssueId × Severity)) (x : IssueId) : Nat :=
  acc.countP (fun p => p.1 = x)

/-- How one incoming severity merges with an existing dict value. -/
def combineSev (o : Option Severity) (s : Severity) : Severity :=
  match o with
  | none => s
  | some v => if v.order < s.order then s else v

/-- The value the dedup fold assigns to key `x`, computed directly over the
raw issue list. -/
def bestSev (init : Option Severity) (l : List (Severity × IssueId)) (x : IssueId) :
    Option Severity :=
  l.foldl (fun o p => if p.2 = x then some (combineSev o p.1) else o) init

theorem keyCount_cons (k : IssueId) (v : Severity) (rest : List (IssueId × Severity))
    (x : IssueId) :
    keyCount ((k, v) :: rest) x = keyCount rest x + (if k = x then 1 else 0) := by
  simp [keyCount, List.countP_cons]

theorem bestSev_cons (init : Option Severity) (p : Severity × IssueId)
    (rest : List (Severity × IssueId)) (x : IssueId) :
    bestSev init (p :: rest) x =
      bestSev (if p.2 = x then some (combineSev init p.1) else init) rest x := rfl

theorem getSev_updateIssue (acc : List (IssueId × Severity)) (sev : Severity)
    (iid x : IssueId) :
    getSev (updateIssue acc sev iid) x =
      if x = iid then some (combineSev (getSev acc iid) sev) else getSev acc x := by
  induction acc with
  | nil =>
    by_cases hx : x = iid
    · subst hx; simp [updateIssue, getSev, combineSev]
    · have hb : ¬iid = x := fun h => hx h.symm
      simp [updateIssue, getSev, hx, hb]
  | cons p rest ih =>
    obtain ⟨k, v⟩ := p
    by_cases hk : k = iid
    · subst hk
      rw [show updateIssue ((k, v) :: rest) sev k
            = (k, if v.order < sev.order then sev else v) :: rest by
          simp [updateIssue]]
      by_cases hx : x = k
      · subst hx; simp [getSev, combineSev]
      · have hb : ¬k = x := fun h => hx h.symm
        simp [getSev, hb, hx]
    · rw [show updateIssue ((k, v) :: rest) sev iid
            = (k, v) :: updateIssue rest sev iid by simp [updateIssue, hk]]
      by_cases hx : x = iid
      · subst hx
        have hkx : ¬k = x := hk
        simp [getSev, hkx, ih]
      · by_cases hkx : k = x
        · subst hkx; simp [getSev, ih, hx]
        · simp [getSev, hkx, ih, hx]

theorem keyCount_updateIssue (acc : List (IssueId × Severity)) (sev : Severity)
    (iid x : IssueId) :
    keyCount (updateIssue acc sev iid) x =
      if x = iid ∧ hasKey acc iid = false then keyCount acc x + 1 else keyCount acc x := by
  induction acc with
  | nil =>
    by_cases hx : x = iid
    · subst hx; simp [updateIssue, keyCount, hasKey]
    · have hb : ¬iid = x := fun h => hx h.symm
      simp [updateIssue, keyCount, hasKey, hx, hb]
  | cons p rest ih =>
    obtain ⟨k, v⟩ := p
    by_cases hk : k = iid
    · subst hk
      rw [show updateIssue ((k, v) :: rest) sev k
            = (k, if v.order < sev.order then sev else v) :: rest by
          simp [updateIssue]]
      have hmem : hasKey ((k, v) :: rest) k = true := by simp [hasKey]
      have hcond : ¬(x = k ∧ hasKey ((k, v) :: rest) k = false) := by
        simp [hmem]
      rw [if_neg hcond, keyCount_cons, keyCount_cons]
    · rw [show updateIssue ((k, v) :: rest) sev iid
            = (k, v) :: updateIssue rest sev iid by simp [updateIssue, hk]]
      have hhk : hasKey ((k, v) :: rest) iid = hasKey rest iid := by
        simp [hasKey, hk]
      rw [keyCount_cons, keyCount_cons, ih, hhk]
      by_cases hcond : x = iid ∧ hasKey rest iid = false
      · rw [if_pos hcond, if_pos hcond]
        exact Nat.add_right_comm _ 1 _
      · rw [if_neg hcond, if_neg hcond]

theorem hasKey_updateIssue (acc : List (IssueId × Severity)) (sev : Severity)
    (iid x : IssueId) :
    hasKey (updateIssue acc sev iid) x = (hasKey acc x || decide (x = iid)) := by
  induction acc with
  | nil =>
    by_cases hx : x = iid
    · subst hx; simp [updateIssue, hasKey]
    · have hb : ¬iid = x := fun h => hx h.symm
      simp [updateIssue, hasKey, hx, hb]
  | cons p rest ih =>
    obtain ⟨k, v⟩ := p
    by_cases hk : k = iid
    · subst hk
      rw [show updateIssue ((k, v) :: rest) sev k
            = (k, if v.order < sev.order then sev else v) :: rest by
          simp [updateIssue]]
      by_cases hx : x = k
      · subst hx; simp [hasKey]
      · have hb : ¬k = x := fun h => hx h.symm
        simp [hasKey, hb, hx]
    · rw [show updateIssue ((k, v) :: rest) sev iid
            = (k, v) :: updateIssue rest sev iid by simp [updateIssue, hk]]
      simp only [hasKey, List.any_cons] at ih ⊢
      rw [ih, Bool.or_assoc]

/-- Keys of the dict are unique: the key count is `1` for a present key,
`0` for an absent one.  Invariant of the fold accumulator. -/
def goodKeys (acc : List (IssueId × Severity)) : Prop :=
  ∀ x, keyCount acc x = if hasKey acc x then 1 else 0

theorem goodKeys_updateIssue {acc : List (IssueId × Severity)}
    (h : goodKeys acc) (sev : Severity) (iid : IssueId) :
    goodKeys (updateIssue acc sev iid) := by
  intro x
  rw [keyCount_updateIssue, hasKey_updateIssue, h x]
  by_cases hx : x = iid
  · subst hx
    by_cases hmem : hasKey acc x = true
    · simp [hmem]
    · have hmem' : hasKey acc x = false := by
        simpa using hmem
      simp [hmem']
  · have hd : (decide (x = iid) : Bool) = false := by simp [hx]
    simp [hx, hd]

theorem goodKeys_foldl (l : List (Severity × IssueId)) :
    ∀ acc : List (IssueId × Severity), goodKeys acc →
      goodKeys (l.foldl (fun acc p => updateIssue acc p.1 p.2) acc) := by
  induction l with
  | nil => intro acc h; exact h
  | cons p rest ih =>
    intro acc h
    exact ih _ (goodKeys_updateIssue h p.1 p.2)

theorem goodKeys_mergeIssues (l : List (Severity × IssueId)) :
    goodKeys (mergeIssues l) := by
  refine goodKeys_foldl l [] ?_
  intro x; simp [keyCount, hasKey]

/-- The dedup fold computes exactly the direct max-merge `bestSev`. -/
theorem getSev_foldl (l : List (Severity × IssueId)) :
    ∀ (acc : List (IssueId × Severity)) (x : IssueId),
      getSev (l.foldl (fun acc p => updateIssue acc p.1 p.2) acc) x =
        bestSev (getSev acc x) l x := by
  induction l with
  | nil => intro acc x; rfl
  | cons p rest ih =>
    intro acc x
    rw [List.foldl_cons, ih, bestSev_cons, getSev_updateIssue]
    by_cases hx : x = p.2
    · subst hx; rw [if_pos rfl]
    · rw [if_neg hx, if_neg (fun h => hx h.symm)]

theorem getSev_mergeIssues (l : List (Severity × IssueId)) (x : IssueId) :
    getSev (mergeIssues l) x = bestSev none l x := by
  rw [mergeIssues, getSev_foldl]
  rfl

theorem bestSev_some_of_some (l : List (Severity × IssueId)) :
    ∀ (c : Severity) (x : IssueId), bestSev (some c) l x ≠ none := by
  induction l with
  | nil => intro c x h; exact Option.noConfusion h
  | cons p rest ih =>
    intro c x
    rw [bestSev_cons]
    by_cases hx : p.2 = x
    · rw [if_pos hx]; exact ih _ x
    · rw [if_neg hx]; exact ih c x

theorem bestSev_spec (l : List (Severity × IssueId)) :
    ∀ (init : Option Severity) (x : IssueId) (s : Severity),
      bestSev init l x = some s →
        ((s, x) ∈ l ∨ init = some s) ∧
        (∀ s', (s', x) ∈ l → s'.order ≤ s.order) ∧
        (∀ v, init = some v → v.order ≤ s.order) := by
  induction l with
  | nil =>
    intro init x s h
    have h' : init = some s := h
    refine ⟨Or.inr h', ?_, ?_⟩
    · intro s' hs'; exact absurd hs' (List.not_mem_nil _)
    · intro v hv
      rw [hv] at h'
      cases Option.some.inj h'
      exact Nat.le_refl _
  | cons p rest ih =>
    intro init x s h
    rw [bestSev_cons] at h
    by_cases hx : p.2 = x
    · rw [if_pos hx] at h
      obtain ⟨hmem, hmax, hinit⟩ := ih (some (combineSev init p.1)) x s h
      have hz : (combineSev init p.1 = p.1 ∨ init = some (combineSev init p.1)) ∧
          p.1.order ≤ (combineSev init p.1).order ∧
          (∀ v, init = some v → v.order ≤ (combineSev init p.1).order) := by
        cases init with
        | none =>
          exact ⟨Or.inl rfl, Nat.le_refl _, fun v hv => Option.noConfusion hv⟩
        | some w =>
          simp only [combineSev]
          by_cases hw : w.order < p.1.order
          · rw [if_pos hw]
            exact ⟨Or.inl rfl, Nat.le_refl _,
              fun v hv => by cases hv; exact Nat.le_of_lt hw⟩
          · rw [if_neg hw]
            exact ⟨Or.inr rfl, Nat.le_of_not_lt hw,
              fun v hv => by cases hv; exact Nat.le_refl _⟩
      obtain ⟨hz1, hz2, hz3⟩ := hz
      have hcle : (combineSev init p.1).order ≤ s.order :=
        hinit (combineSev init p.1) rfl
      refine ⟨?_, ?_, ?_⟩
      · rcases hmem with hmem | hmem
        · exact Or.inl (List.mem_cons_of_mem _ hmem)
        · rcases hz1 with hz1 | hz1
          · left
            have hps : (s, x) = p := by
              have hs1 : s = p.1 := by
                have := hmem.symm
                rw [hz1] at this
                exact Option.some.inj this
              rw [hs1, ← hx]
            rw [hps]; exact List.mem_cons_self _ _
          · right
            rw [hz1, hmem]
      · intro s' hs'
        rcases List.mem_cons.1 hs' with hs' | hs'
        · have hout : s' = p.1 := congrArg Prod.fst hs'
          rw [hout]
          exact Nat.le_trans hz2 hcle
        · exact hmax s' hs'
      · intro v hv
        exact Nat.le_trans (hz3 v hv) hcle
    · rw [if_neg hx] at h
      obtain ⟨hmem, hmax, hinit⟩ := ih init x s h
      refine ⟨?_, ?_, hinit⟩
      · rcases hmem with hmem | hmem
        · exact Or.inl (List.mem_cons_of_mem _ hmem)
        · exact Or.inr hmem
      · intro s' hs'
        rcases List.mem_cons.1 hs' with hs' | hs'
        · exact absurd (congrArg Prod.snd hs').symm hx
        · exact hmax s' hs'

theorem bestSev_none_not_mem (l : List (Severity × IssueId)) :
    ∀ (init : Option Severity) (x : IssueId),
      bestSev init l x = none → ∀ s, (s, x) ∉ l := by
  induction l with
  | nil => intro init x _ s hs; exact absurd hs (List.not_mem_nil _)
  | cons p rest ih =>
    intro init x h s hs
    rw [bestSev_cons] at h
    by_cases hx : p.2 = x
    · rw [if_pos hx] at h
      exact bestSev_some_of_some rest _ x h
    · rw [if_neg hx] at h
      rcases List.mem_cons.1 hs with hs | hs
      · exact hx (congrArg Prod.snd hs).symm
      · exact ih init x h s hs

/-- `getSev` only returns values actually stored in the association list. -/
theorem getSev_mem (acc : List (IssueId × Severity)) (x : IssueId) (s : Severity) :
    getSev acc x = some s → (x, s) ∈ acc := by
  induction acc with
  | nil => intro h; exact Option.noConfusion h
  | cons p rest ih =>
    obtain ⟨k, v⟩ := p
    intro h
    by_cases hk : k = x
    · subst hk
      rw [show getSev ((k, v) :: rest) k = some v by simp [getSev]] at h
      cases Option.some.inj h
      exact List.mem_cons_self _ _
    · rw [show getSev ((k, v) :: rest) x = getSev rest x by simp [getSev, hk]] at h
      exact List.mem_cons_of_mem _ (ih h)

/-- With at most one entry per key, membership determines `getSev`. -/
theorem mem_getSev_of_count (acc : List (IssueId × Severity)) (x : IssueId) (s : Severity)
    (hc : keyCount acc x ≤ 1) (hmem : (x, s) ∈ acc) : getSev acc x = some s := by
  induction acc with
  | nil => exact absurd hmem (List.not_mem_nil _)
  | cons p rest ih =>
    obtain ⟨k, v⟩ := p
    rw [keyCount_cons] at hc
    rcases List.mem_cons.1 hmem with hmem1 | hmem1
    · have hk : k = x := (congrArg Prod.fst hmem1).symm
      have hv : v = s := (congrArg Prod.snd hmem1).symm
      subst hk; subst hv
      simp [getSev]
    · have hpos : 0 < keyCount rest x :=
        List.countP_pos_iff.2 ⟨(x, s), hmem1, by simp⟩
      by_cases hk : k = x
      · rw [if_pos hk] at hc
        omega
      · rw [if_neg hk] at hc
        rw [show getSev ((k, v) :: rest) x = getSev rest x by simp [getSev, hk]]
        exact ih (by omega) hmem1

theorem hasKey_of_mem {acc : List (IssueId × Severity)} {x : IssueId} {s : Severity}
    (h : (x, s) ∈ acc) : hasKey acc x = true :=
  List.any_eq_true.2 ⟨(x, s), h, by simp⟩

/-- C1: when the raw rule results of a `run_health_check` run mention the same
`issue_id` at several severities, the deduplicated issue set contains that
`issue_id` exactly once, at the highest-ranked of the emitted severities
(`FAIL > WARN > INFO > PASS`), regardless of emission order; in particular
`[(WARN,"x"),(FAIL,"x"),(INFO,"x")]` collapses to exactly `[(FAIL,"x")]`. -/
theorem C1_issue_dedup_keeps_max_severity (l : List (Severity × IssueId)) (x : IssueId)
    (hx : x ∈ l.map Prod.snd) :
    (currentIssues l).countP (fun q => q.2 = x) = 1 ∧
    (∀ s : Severity, (s, x) ∈ currentIssues l →
      (s, x) ∈ l ∧ ∀ s' : Severity, (s', x) ∈ l → s'.order ≤ s.order) ∧
    currentIssues [(Severity.WARN, "x"), (Severity.FAIL, "x"), (Severity.INFO, "x")]
      = [(Severity.FAIL, "x")] := by
  have hocc : ∃ s0 : Severity, (s0, x) ∈ l := by
    rcases List.mem_map.1 hx with ⟨p, hp, hpx⟩
    exact ⟨p.1, by rwa [show (p.1, x) = p by rw [← hpx]]⟩
  have hbest : ∃ s : Severity, bestSev none l x = some s := by
    cases hb : bestSev none l x with
    | none =>
      rcases hocc with ⟨s0, hs0⟩
      exact absurd hs0 (bestSev_none_not_mem l none x hb s0)
    | some s => exact ⟨s, rfl⟩
  rcases hbest with ⟨s, hs⟩
  have hget : getSev (mergeIssues l) x = some s := by
    rw [getSev_mergeIssues]; exact hs
  have hkmem : hasKey (mergeIssues l) x = true :=
    hasKey_of_mem (getSev_mem _ _ _ hget)
  have hcount : keyCount (mergeIssues l) x = 1 := by
    rw [goodKeys_mergeIssues l x, hkmem]
    rfl
  refine ⟨?_, ?_, by decide⟩
  · rw [currentIssues, List.countP_map]
    exact hcount
  · intro s1 hmem
    have hmem' : (x, s1) ∈ mergeIssues l := by
      rcases List.mem_map.1 hmem with ⟨p, hp, hpe⟩
      have h1 : p.2 = s1 := congrArg Prod.fst hpe
      have h2 : p.1 = x := congrArg Prod.snd hpe
      rwa [show (x, s1) = p by rw [← h1, ← h2]]
    have hget1 : getSev (mergeIssues l) x = some s1 :=
      mem_getSev_of_count _ _ _ (by rw [hcount]) hmem'
    have hs1 : bestSev none l x = some s1 := by
      rw [← getSev_mergeIssues]; exact hget1
    obtain ⟨hm, hmax, _⟩ := bestSev_spec l none x s1 hs1
    refine ⟨?_, hmax⟩
    rcases hm with hm | hm
    · exact hm
    · exact Option.noConfusion hm

/-- Witness for C1 at the spec's own example list. -/
theorem C1_issue_dedup_keeps_max_severity_witness :
    ("x" ∈ ([(Severity.WARN, "x"), (Severity.FAIL, "x"), (Severity.INFO, "x")] :
        List (Severity × IssueId)).map Prod.snd) ∧
    ((currentIssues [(Severity.WARN, "x"), (Severity.FAIL, "x"),
        (Severity.INFO, "x")]).countP (fun q => q.2 = "x") = 1 ∧
      (∀ s : Severity,
        (s, "x") ∈ currentIssues [(Severity.WARN, "x"), (Severity.FAIL, "x"),
            (Severity.INFO, "x")] →
        (s, "x") ∈ ([(Severity.WARN, "x"), (Severity.FAIL, "x"), (Severity.INFO, "x")] :
            List (Severity × IssueId)) ∧
        ∀ s' : Severity,
          (s', "x") ∈ ([(Severity.WARN, "x"), (Severity.FAIL, "x"), (Severity.INFO, "x")] :
              List (Severity × IssueId)) → s'.order ≤ s.order) ∧
      currentIssues [(Severity.WARN, "x"), (Severity.FAIL, "x"), (Severity.INFO, "x")]
        = [(Severity.FAIL, "x")]) :=
  ⟨by decide, C1_issue_dedup_keeps_max_severity _ "x" (by decide)⟩

/-! ## Threshold rules of the diagnostic engine (run_health_check, lines 1776-1823)

The current signal is parsed as a float (NaN when unparseable); losses as
ints and latencies as floats, each `None` when unparseable.  Thresholds
come from the configuration.
-/

/-- Signal rule (lines 1780-1785): with a non-NaN signal,
`sig < signal_fail` raises FAIL `weak_signal`, else `sig < signal_warn`
raises WARN `moderate_signal`.  `none` embeds the NaN case. -/
def signalIssues (sig : Option ℚ) (signalFail signalWarn : ℚ) :
    List (Severity × IssueId) :=
  match sig with
  | none => []
  | some s =>
    if s < signalFail then [(Severity.FAIL, "weak_signal")]
    else if s < signalWarn then [(Severity.WARN, "moderate_signal")]
    else []

/-- Packet-loss rule for one target (lines 1804-1813): `loss > loss_fail`
raises FAIL, else `loss > loss_warn` raises WARN, both on the target's
issue id (`gateway_packet_loss` / `internet_packet_loss`). -/
def lossIssues (loss : Option ℤ) (lossWarn lossFail : ℤ) (iid : IssueId) :
    List (Severity × IssueId) :=
  match loss with
  | none => []
  | some l =>
    if l > lossFail then [(Severity.FAIL, iid)]
    else if l > lossWarn then [(Severity.WARN, iid)]
    else []

/-- Latency rule for one target (lines 1814-1823): same warn/fail split
against `latency_warn`/`latency_fail`
(`gateway_high_latency` / `internet_high_latency`). -/
def latencyIssues (lat : Option ℚ) (latWarn latFail : ℚ) (iid : IssueId) :
    List (Severity × IssueId) :=
  match lat with
  | none => []
  | some a =>
    if a > latFail then [(Severity.FAIL, iid)]
    else if a > latWarn then [(Severity.WARN, iid)]
    else []

/-- C2: FAIL `weak_signal` fires iff the signal is strictly below
`signal_fail`, WARN `moderate_signal` iff it is in `[signal_fail, signal_warn)`;
a signal exactly at `signal_fail` yields WARN, one at `signal_fail - 1` yields
FAIL.  For loss and latency, FAIL fires iff the reading is strictly above the
fail threshold, WARN iff it is strictly above the warn threshold but not above
the fail threshold; a reading exactly at the fail threshold yields WARN. -/
theorem C2_threshold_boundaries (sf sw : ℚ) (hsig : sf < sw)
    (lw lf : ℤ) (hloss : lw < lf) (aw af : ℚ) (hlat : aw < af) :
    (∀ s : ℚ,
      ((Severity.FAIL, "weak_signal") ∈ signalIssues (some s) sf sw ↔ s < sf) ∧
      ((Severity.WARN, "moderate_signal") ∈ signalIssues (some s) sf sw ↔
        sf ≤ s ∧ s < sw)) ∧
    signalIssues (some sf) sf sw = [(Severity.WARN, "moderate_signal")] ∧
    signalIssues (some (sf - 1)) sf sw = [(Severity.FAIL, "weak_signal")] ∧
    (∀ (l : ℤ) (iid : IssueId),
      ((Severity.FAIL, iid) ∈ lossIssues (some l) lw lf iid ↔ lf < l) ∧
      ((Severity.WARN, iid) ∈ lossIssues (some l) lw lf iid ↔ lw < l ∧ l ≤ lf)) ∧
    (∀ iid : IssueId, lossIssues (some lf) lw lf iid = [(Severity.WARN, iid)]) ∧
    (∀ (a : ℚ) (iid : IssueId),
      ((Severity.FAIL, iid) ∈ latencyIssues (some a) aw af iid ↔ af < a) ∧
      ((Severity.WARN, iid) ∈ latencyIssues (some a) aw af iid ↔ aw < a ∧ a ≤ af)) ∧
    (∀ iid : IssueId, latencyIssues (some af) aw af iid = [(Severity.WARN, iid)]) := by
  refine ⟨?_, ?_, ?_, ?_, ?_, ?_, ?_⟩
  · intro s
    constructor
    · by_cases h1 : s < sf
      · simp [signalIssues, h1]
      · by_cases h2 : s < sw <;> simp [signalIssues, h1, h2]
    · by_cases h1 : s < sf
      · simp [signalIssues, h1, not_le.2 h1]
      · by_cases h2 : s < sw <;> simp [signalIssues, h1, h2, not_lt.1 h1]
  · simp [signalIssues, lt_irrefl, hsig]
  · have h1 : sf - 1 < sf := by linarith
    simp [signalIssues, h1]
  · intro l iid
    constructor
    · by_cases h1 : l > lf
      · simp [lossIssues, h1]
      · by_cases h2 : l > lw <;> simp [lossIssues, h1, h2]
    · by_cases h1 : l > lf
      · simp [lossIssues, h1, not_le.2 h1]
      · by_cases h2 : l > lw <;> simp [lossIssues, h1, h2, not_lt.1 h1]
  · intro iid
    simp [lossIssues, lt_irrefl, hloss]
  · intro a iid
    constructor
    · by_cases h1 : a > af
      · simp [latencyIssues, h1]
      · by_cases h2 : a > aw <;> simp [latencyIssues, h1, h2]
    · by_cases h1 : a > af
      · simp [latencyIssues, h1, not_le.2 h1]
      · by_cases h2 : a > aw <;> simp [latencyIssues, h1, h2, not_lt.1 h1]
  · intro iid
    simp [latencyIssues, lt_irrefl, hlat]

/-- Witness for C2 at the default thresholds
(signal 35/55, loss 10/20, latency 150/300). -/
theorem C2_threshold_boundaries_witness :
    ((35 : ℚ) < 55 ∧ (10 : ℤ) < 20 ∧ (150 : ℚ) < 300) ∧
    ((∀ s : ℚ,
      ((Severity.FAIL, "weak_signal") ∈ signalIssues (some s) 35 55 ↔ s < 35) ∧
      ((Severity.WARN, "moderate_signal") ∈ signalIssues (some s) 35 55 ↔
        35 ≤ s ∧ s < 55)) ∧
    signalIssues (some 35) 35 55 = [(Severity.WARN, "moderate_signal")] ∧
    signalIssues (some (35 - 1)) 35 55 = [(Severity.FAIL, "weak_signal")] ∧
    (∀ (l : ℤ) (iid : IssueId),
      ((Severity.FAIL, iid) ∈ lossIssues (some l) 10 20 iid ↔ 20 < l) ∧
      ((Severity.WARN, iid) ∈ lossIssues (some l) 10 20 iid ↔ 10 < l ∧ l ≤ 20)) ∧
    (∀ iid : IssueId, lossIssues (some 20) 10 20 iid = [(Severity.WARN, iid)]) ∧
    (∀ (a : ℚ) (iid : IssueId),
      ((Severity.FAIL, iid) ∈ latencyIssues (some a) 150 300 iid ↔ 300 < a) ∧
      ((Severity.WARN, iid) ∈ latencyIssues (some a) 150 300 iid ↔ 150 < a ∧ a ≤ 300)) ∧
    (∀ iid : IssueId, latencyIssues (some 300) 150 300 iid = [(Severity.WARN, iid)])) :=
  ⟨⟨by norm_num, by norm_num, by norm_num⟩,
    C2_threshold_boundaries 35 55 (by norm_num) 10 20 (by norm_num) 150 300 (by norm_num)⟩

/-! ## Roam detection (MonitorThread.run, lines 879-891)

`parse_netsh_interfaces` defaults every field to `""`, so the Python
truthiness tests `if intf_info.get("ssid") and cur_bssid` are `≠ ""` on
strings; `self.prev_bssid` / `self.prev_signal` start as `None`.
-/

/-- The interface fields consumed by roam detection. -/
structure IfaceInfo where
  ssid : String
  bssid : String
  signalPct : String
deriving DecidableEq, Repr

/-- `self.prev_bssid` / `self.prev_signal` (lines 845-846). -/
structure RoamState where
  prevBssid : Option String
  prevSignal : Option String
deriving DecidableEq, Repr

/-- One row of `roaming_events.csv` (sans timestamp). -/
structure RoamEvent where
  ssid : String
  oldBssid : String
  newBssid : String
  oldSignal : String
  newSignal : String
deriving DecidableEq, Repr

/-- Python `x or ""` on an optional string. -/
def orEmpty : Option String → String
  | none => ""
  | some s => s

/-- Invariant of `prev_bssid`: it is `None` or a non-empty string (it is
only ever assigned a truthy `cur_bssid`). -/
def roamInv (st : RoamState) : Prop :=
  st.prevBssid = none ∨ ∃ p, st.prevBssid = some p ∧ p ≠ ""

/-- One iteration of the roam-detection block (lines 880-891): an event is
logged iff ssid and bssid are truthy, `self.prev_bssid` is truthy and it
differs from `cur_bssid`; `prev_bssid`/`prev_signal` are updated only when
ssid and bssid are both truthy. -/
def roamStep (st : RoamState) (cur : IfaceInfo) : RoamState × Option RoamEvent :=
  if cur.ssid ≠ "" ∧ cur.bssid ≠ "" then
    (⟨some cur.bssid, some cur.signalPct⟩,
      match st.prevBssid with
      | none => none
      | some p =>
        if p ≠ "" ∧ p ≠ cur.bssid then
          some ⟨cur.ssid, p, cur.bssid, orEmpty st.prevSignal, cur.signalPct⟩
        else none)
  else (st, none)

/-- The roam events produced by a sequence of sampling cycles. -/
def roamRun (st : RoamState) : List IfaceInfo → RoamState × List RoamEvent
  | [] => (st, [])
  | cur :: rest =>
    let r := roamStep st cur
    let rr := roamRun r.1 rest
    (rr.1, r.2.toList ++ rr.2)

def initRoamState : RoamState := ⟨none, none⟩

/-- C3: a RoamEvent is emitted for a sample iff ssid and bssid are both
non-empty, a previous bssid was recorded and it differs from the current one;
the remembered state changes only when ssid and bssid are both non-empty, so
a disconnected sample leaves it untouched.  Hence bssids A,A,B,B,A (non-empty
ssid throughout) produce exactly 2 events and A,(disconnect),A produce 0. -/
theorem C3_roam_detection :
    (∀ (st : RoamState) (cur : IfaceInfo), roamInv st →
      ((roamStep st cur).2.isSome = true ↔
        (cur.ssid ≠ "" ∧ cur.bssid ≠ "" ∧ st.prevBssid.isSome = true ∧
          st.prevBssid ≠ some cur.bssid))) ∧
    (∀ (st : RoamState) (cur : IfaceInfo),
      ¬(cur.ssid ≠ "" ∧ cur.bssid ≠ "") → (roamStep st cur).1 = st) ∧
    (∀ (st : RoamState) (cur : IfaceInfo), roamInv st → roamInv (roamStep st cur).1) ∧
    roamInv initRoamState ∧
    (roamRun initRoamState
        [⟨"net", "A", "50"⟩, ⟨"net", "A", "50"⟩, ⟨"net", "B", "45"⟩,
         ⟨"net", "B", "45"⟩, ⟨"net", "A", "40"⟩]).2.length = 2 ∧
    (roamRun initRoamState
        [⟨"net", "A", "50"⟩, ⟨"", "", ""⟩, ⟨"net", "A", "50"⟩]).2.length = 0 := by
  refine ⟨?_, ?_, ?_, Or.inl rfl, by decide, by decide⟩
  · intro st cur hinv
    by_cases hc : cur.ssid ≠ "" ∧ cur.bssid ≠ ""
    · rw [roamStep, if_pos hc]
      cases hp : st.prevBssid with
      | none => simp [hp]
      | some p =>
        have hpne : p ≠ "" := by
          rcases hinv with hinv | ⟨q, hq, hqne⟩
          · rw [hinv] at hp; exact Option.noConfusion hp
          · rw [hq] at hp; cases Option.some.inj hp; exact hqne
        by_cases hpb : p = cur.bssid
        · subst hpb
          simp [hc.1, hc.2, hpne]
        · simp [hc.1, hc.2, hpne, hpb]
    · rw [roamStep, if_neg hc]
      constructor
      · intro h; simp at h
      · intro h; exact absurd ⟨h.1, h.2.1⟩ hc
  · intro st cur hc
    rw [roamStep, if_neg hc]
  · intro st cur hinv
    by_cases hc : cur.ssid ≠ "" ∧ cur.bssid ≠ ""
    · rw [roamStep, if_pos hc]
      exact Or.inr ⟨cur.bssid, rfl, hc.2⟩
    · rw [roamStep, if_neg hc]
      exact hinv

/-- Witness for C3: step with recorded previous bssid "A" and current "B". -/
theorem C3_roam_detection_witness :
    (roamStep ⟨some "A", some "50"⟩ ⟨"net", "B", "40"⟩).2.isSome = true ↔
      (("net" : String) ≠ "" ∧ ("B" : String) ≠ "" ∧
        (some "A" : Option String).isSome = true ∧
        (some "A" : Option String) ≠ some "B") :=
  C3_roam_detection.1 ⟨some "A", some "50"⟩ ⟨"net", "B", "40"⟩
    (Or.inr ⟨"A", rfl, by decide⟩)

/-! ## History ring buffers (MonitorThread.__init__ lines 838-843, run 892-901)

Five `collections.deque(maxlen=max_samples)` buffers, with
`max_samples = max(60, int(600 / max(1, scan_interval)))`.  Every sampling
cycle appends exactly one element to each (NaN sentinel for a missing
reading, embedded as `none`).
-/

/-- `max_samples = max(60, int(600 / max(1, scan_interval)))` (line 838). -/
def maxSamples (interval : Nat) : Nat := max 60 (600 / max 1 interval)

/-- `deque(maxlen=cap).append(x)`: evicts the oldest (leftmost) entry when
the buffer is full. -/
def dappend (cap : Nat) (l : List α) (x : α) : List α :=
  if l.length < cap then l ++ [x] else l.tail ++ [x]

/-- The per-cycle buffer entries (lines 893-901). -/
structure CycleData where
  sig : Option ℚ
  gwAvg : Option ℚ
  remAvg : Option ℚ
  throughput : Option ℚ
  ts : Nat
deriving Repr

/-- The five rolling buffers (lines 839-843). -/
structure Buffers where
  bufSignal : List (Option ℚ)
  bufPingGw : List (Option ℚ)
  bufPingRem : List (Option ℚ)
  bufThroughput : List (Option ℚ)
  bufTs : List Nat
deriving DecidableEq, Repr

def emptyBuffers : Buffers := ⟨[], [], [], [], []⟩

/-- Lines 897-901: one cycle appends one entry to each buffer. -/
def recordCycle (cap : Nat) (b : Buffers) (c : CycleData) : Buffers :=
  ⟨dappend cap b.bufSignal c.sig, dappend cap b.bufPingGw c.gwAvg,
   dappend cap b.bufPingRem c.remAvg, dappend cap b.bufThroughput c.throughput,
   dappend cap b.bufTs c.ts⟩

def runBuffers (cap : Nat) (cycles : List CycleData) : Buffers :=
  cycles.foldl (recordCycle cap) emptyBuffers

/-- The last `cap` elements of `l`. -/
def lastN (cap : Nat) (l : List α) : List α := l.drop (l.length - cap)

theorem length_lastN (cap : Nat) (l : List α) :
    (lastN cap l).length = min l.length cap := by
  rw [lastN, List.length_drop]
  omega

theorem dappend_lastN (cap : Nat) (hcap : 1 ≤ cap) (l : List α) (x : α) :
    dappend cap (lastN cap l) x = lastN cap (l ++ [x]) := by
  by_cases h : l.length < cap
  · have h0 : l.length - cap = 0 := by omega
    have h1 : l.length + 1 - cap = 0 := by omega
    rw [lastN, h0, List.drop_zero, dappend, if_pos h, lastN,
      List.length_append, List.length_singleton, h1, List.drop_zero]
  · have hlen : (lastN cap l).length = cap := by
      rw [length_lastN]; omega
    rw [dappend, if_neg (by omega), lastN, List.tail_drop, lastN,
      List.length_append, List.length_singleton,
      List.drop_append_of_le_length (by omega)]
    congr 2
    omega

/-- After any cycle sequence, each buffer is the last `cap` entries of the
corresponding full per-cycle sequence. -/
theorem runBuffers_eq (cap : Nat) (hcap : 1 ≤ cap) (cycles : List CycleData) :
    runBuffers cap cycles =
      ⟨lastN cap (cycles.map CycleData.sig), lastN cap (cycles.map CycleData.gwAvg),
       lastN cap (cycles.map CycleData.remAvg),
       lastN cap (cycles.map CycleData.throughput),
       lastN cap (cycles.map CycleData.ts)⟩ := by
  induction cycles using List.reverseRecOn with
  | nil => simp [runBuffers, emptyBuffers, lastN]
  | append_singleton cs c ih =>
    rw [runBuffers, List.foldl_append, ← runBuffers, ih]
    simp only [recordCycle, List.foldl_cons, List.foldl_nil, List.map_append,
      List.map_cons, List.map_nil]
    rw [dappend_lastN cap hcap, dappend_lastN cap hcap, dappend_lastN cap hcap,
      dappend_lastN cap hcap, dappend_lastN cap hcap]

/-- C4: the five history buffers always have equal length, at most the
construction-time capacity `max(60, 600/interval)`, and each buffer equals
the last `cap` entries of its full per-cycle sequence — dropping the same
count `k` of oldest cycles in all five, so index `i` in every buffer comes
from cycle `k + i`. -/
theorem C4_history_buffers_lockstep (interval : Nat) (hi : 1 ≤ interval)
    (cycles : List CycleData) :
    maxSamples interval = max 60 (600 / interval) ∧
    ((runBuffers (maxSamples interval) cycles).bufSignal.length
        = min cycles.length (maxSamples interval) ∧
      (runBuffers (maxSamples interval) cycles).bufPingGw.length
        = min cycles.length (maxSamples interval) ∧
      (runBuffers (maxSamples interval) cycles).bufPingRem.length
        = min cycles.length (maxSamples interval) ∧
      (runBuffers (maxSamples interval) cycles).bufThroughput.length
        = min cycles.length (maxSamples interval) ∧
      (runBuffers (maxSamples interval) cycles).bufTs.length
        = min cycles.length (maxSamples interval)) ∧
    (∃ k, k = cycles.length - maxSamples interval ∧
      (runBuffers (maxSamples interval) cycles).bufSignal
        = (cycles.map CycleData.sig).drop k ∧
      (runBuffers (maxSamples interval) cycles).bufPingGw
        = (cycles.map CycleData.gwAvg).drop k ∧
      (runBuffers (maxSamples interval) cycles).bufPingRem
        = (cycles.map CycleData.remAvg).drop k ∧
      (runBuffers (maxSamples interval) cycles).bufThroughput
        = (cycles.map CycleData.throughput).drop k ∧
      (runBuffers (maxSamples interval) cycles).bufTs
        = (cycles.map CycleData.ts).drop k) := by
  have hcap : 1 ≤ maxSamples interval := by
    have : 60 ≤ maxSamples interval := le_max_left _ _
    omega
  have heq := runBuffers_eq (maxSamples interval) hcap cycles
  refine ⟨?_, ?_, ?_⟩
  · have h1 : max 1 interval = interval := Nat.max_eq_right hi
    rw [maxSamples, h1]
  · rw [heq]
    simp [length_lastN]
  · refine ⟨cycles.length - maxSamples interval, rfl, ?_, ?_, ?_, ?_, ?_⟩ <;>
      · rw [heq]
        simp only [lastN, List.length_map]

/-- Witness for C4 at interval 5 with three cycles. -/
theorem C4_history_buffers_lockstep_witness :
    1 ≤ 5 ∧
    (maxSamples 5 = max 60 (600 / 5) ∧
      ((runBuffers (maxSamples 5) [⟨some 50, some 10, some 20, none, 0⟩,
          ⟨none, none, none, none, 1⟩, ⟨some 40, some 12, some 22, some 5, 2⟩]).bufSignal.length
          = min ([⟨some 50, some 10, some 20, none, 0⟩, ⟨none, none, none, none, 1⟩,
            ⟨some 40, some 12, some 22, some 5, 2⟩] : List CycleData).length (maxSamples 5) ∧
        (runBuffers (maxSamples 5) [⟨some 50, some 10, some 20, none, 0⟩,
          ⟨none, none, none, none, 1⟩, ⟨some 40, some 12, some 22, some 5, 2⟩]).bufPingGw.length
          = min ([⟨some 50, some 10, some 20, none, 0⟩, ⟨none, none, none, none, 1⟩,
            ⟨some 40, some 12, some 22, some 5, 2⟩] : List CycleData).length (maxSamples 5) ∧
        (runBuffers (maxSamples 5) [⟨some 50, some 10, some 20, none, 0⟩,
          ⟨none, none, none, none, 1⟩, ⟨some 40, some 12, some 22, some 5, 2⟩]).bufPingRem.length
          = min ([⟨some 50, some 10, some 20, none, 0⟩, ⟨none, none, none, none, 1⟩,
            ⟨some 40, some 12, some 22, some 5, 2⟩] : List CycleData).length (maxSamples 5) ∧
        (runBuffers (maxSamples 5) [⟨some 50, some 10, some 20, none, 0⟩,
          ⟨none, none, none, none, 1⟩, ⟨some 40, some 12, some 22, some 5, 2⟩]).bufThroughput.length
          = min ([⟨some 50, some 10, some 20, none, 0⟩, ⟨none, none, none, none, 1⟩,
            ⟨some 40, some 12, some 22, some 5, 2⟩] : List CycleData).length (maxSamples 5) ∧
        (runBuffers (maxSamples 5) [⟨some 50, some 10, some 20, none, 0⟩,
          ⟨none, none, none, none, 1⟩, ⟨some 40, some 12, some 22, some 5, 2⟩]).bufTs.length
          = min ([⟨some 50, some 10, some 20, none, 0⟩, ⟨none, none, none, none, 1⟩,
            ⟨some 40, some 12, some 22, some 5, 2⟩] : List CycleData).length (maxSamples 5)) ∧
      (∃ k, k = ([⟨some 50, some 10, some 20, none, 0⟩, ⟨none, none, none, none, 1⟩,
            ⟨some 40, some 12, some 22, some 5, 2⟩] : List CycleData).length - maxSamples 5 ∧
        (runBuffers (maxSamples 5) [⟨some 50, some 10, some 20, none, 0⟩,
          ⟨none, none, none, none, 1⟩, ⟨some 40, some 12, some 22, some 5, 2⟩]).bufSignal
          = (([⟨some 50, some 10, some 20, none, 0⟩, ⟨none, none, none, none, 1⟩,
            ⟨some 40, some 12, some 22, some 5, 2⟩] : List CycleData).map CycleData.sig).drop k ∧
        (runBuffers (maxSamples 5) [⟨some 50, some 10, some 20, none, 0⟩,
          ⟨none, none, none, none, 1⟩, ⟨some 40, some 12, some 22, some 5, 2⟩]).bufPingGw
          = (([⟨some 50, some 10, some 20, none, 0⟩, ⟨none, none, none, none, 1⟩,
            ⟨some 40, some 12, some 22, some 5, 2⟩] : List CycleData).map CycleData.gwAvg).drop k ∧
        (runBuffers (maxSamples 5) [⟨some 50, some 10, some 20, none, 0⟩,
          ⟨none, none, none, none, 1⟩, ⟨some 40, some 12, some 22, some 5, 2⟩]).bufPingRem
          = (([⟨some 50, some 10, some 20, none, 0⟩, ⟨none, none, none, none, 1⟩,
            ⟨some 40, some 12, some 22, some 5, 2⟩] : List CycleData).map CycleData.remAvg).drop k ∧
        (runBuffers (maxSamples 5) [⟨some 50, some 10, some 20, none, 0⟩,
          ⟨none, none, none, none, 1⟩, ⟨some 40, some 12, some 22, some 5, 2⟩]).bufThroughput
          = (([⟨some 50, some 10, some 20, none, 0⟩, ⟨none, none, none, none, 1⟩,
            ⟨some 40, some 12, some 22, some 5, 2⟩] : List CycleData).map CycleData.throughput).drop k ∧
        (runBuffers (maxSamples 5) [⟨some 50, some 10, some 20, none, 0⟩,
          ⟨none, none, none, none, 1⟩, ⟨some 40, some 12, some 22, some 5, 2⟩]).bufTs
          = (([⟨some 50, some 10, some 20, none, 0⟩, ⟨none, none, none, none, 1⟩,
            ⟨some 40, some 12, some 22, some 5, 2⟩] : List CycleData).map CycleData.ts).drop k)) :=
  ⟨by norm_num,
    C4_history_buffers_lockstep 5 (by norm_num)
      [⟨some 50, some 10, some 20, none, 0⟩, ⟨none, none, none, none, 1⟩,
        ⟨some 40, some 12, some 22, some 5, 2⟩]⟩

/-! ## Durable log writes in the sampling loop (MonitorThread.run, lines 902-920)

The CSV append (lines 903-910) and the JSONL append (lines 912-920) run
with no surrounding try/except: an OSError raised by either write
propagates out of the `while` loop and ends `MonitorThread.run`, so the
remaining steps of the cycle and all later cycles never execute.
-/

inductive WriteError where
  | csvError
  | jsonlError
deriving DecidableEq, Repr

/-- Whether each durable write of one cycle would raise (disk/permission). -/
structure CycleIO where
  csvFails : Bool
  jsonlFails : Bool
deriving DecidableEq, Repr

/-- Observable per-session counters: records appended to each log and
cycles whose body ran to completion. -/
structure MonState where
  csvRecords : Nat
  jsonlRecords : Nat
  cyclesCompleted : Nat
deriving DecidableEq, Repr

/-- One loop iteration from the durable-write point on: the CSV write
(line 903), then the JSONL write (line 912), then the remainder of the
cycle; an exception aborts the iteration. -/
def sampleCycle (st : MonState) (io : CycleIO) : Except WriteError MonState :=
  if io.csvFails then .error .csvError
  else
    let st1 : MonState := ⟨st.csvRecords + 1, st.jsonlRecords, st.cyclesCompleted⟩
    if io.jsonlFails then .error .jsonlError
    else .ok ⟨st1.csvRecords, st1.jsonlRecords + 1, st1.cyclesCompleted + 1⟩

/-- The `while not self.stop_event.is_set()` loop (line 866): no exception
handler wraps the body, so an error ends the loop (and the thread). -/
def monitorRun (st : MonState) : List CycleIO → Except WriteError MonState
  | [] => .ok st
  | io :: rest =>
    match sampleCycle st io with
    | .ok st' => monitorRun st' rest
    | .error e => .error e

def initMonState : MonState := ⟨0, 0, 0⟩

/-- C5 counterexample: a failing CSV write on the first cycle aborts the
run — the result is the propagated error, not a completed run; the
following healthy cycle is never sampled, refuting "the sampling loop
continues to the next cycle uninterrupted". -/
theorem C5_counterexample_write_failure_fatal :
    monitorRun initMonState [⟨true, false⟩, ⟨false, false⟩]
      = Except.error WriteError.csvError := rfl

/-- C5 amended: a disk/permission failure of the CSV or JSONL append is
unhandled — it propagates out of the loop body, terminating monitoring;
no later cycle executes. -/
theorem C5_write_failure_terminates_loop (st : MonState) (io : CycleIO)
    (rest : List CycleIO) :
    (io.csvFails = true →
      monitorRun st (io :: rest) = Except.error WriteError.csvError) ∧
    (io.csvFails = false → io.jsonlFails = true →
      monitorRun st (io :: rest) = Except.error WriteError.jsonlError) := by
  constructor
  · intro h
    simp [monitorRun, sampleCycle, h]
  · intro h1 h2
    simp [monitorRun, sampleCycle, h1, h2]

/-- Witness for the amended C5: one cycle whose CSV write fails. -/
theorem C5_write_failure_terminates_loop_witness :
    (⟨true, false⟩ : CycleIO).csvFails = true ∧
    monitorRun initMonState [⟨true, false⟩] = Except.error WriteError.csvError :=
  ⟨rfl, (C5_write_failure_terminates_loop initMonState ⟨true, false⟩ []).1 rfl⟩

/-! ## Rotation trigger in the sampling loop (MonitorThread.run, lines 921-923)

`if start_ts.time().hour == 0 and start_ts.time().minute == 0: rotate_log(...)`
where `start_ts = datetime.now(timezone.utc)` — the check fires on every
sample whose UTC wall-clock time falls in the minute 00:00, independently of
whether a day boundary was crossed since the previous sample.
-/

/-- A UTC wall-clock instant as the rotation check sees it. -/
structure UtcTime where
  day : Nat
  hour : Nat
  minute : Nat
  second : Nat
deriving DecidableEq, Repr

/-- Line 922: rotation runs for a cycle iff its timestamp has
`hour == 0 and minute == 0`. -/
def rotateTriggered (t : UtcTime) : Bool := t.hour == 0 && t.minute == 0

/-- The claim's trigger: the midnight boundary was crossed since the
previous cycle (the calendar day advanced between the two samples). -/
def boundaryCrossed (prev cur : UtcTime) : Bool := prev.day < cur.day

/-- C7 counterexample: two consecutive cycles at 00:00:10 and 00:00:40 of
the same day both run rotation, although no midnight boundary is crossed
between them — rotation is invoked twice for one day boundary, and not
"iff the boundary was crossed since the previous cycle". -/
theorem C7_counterexample_rotation_trigger :
    rotateTriggered ⟨5, 0, 0, 10⟩ = true ∧
    rotateTriggered ⟨5, 0, 0, 40⟩ = true ∧
    boundaryCrossed ⟨5, 0, 0, 10⟩ ⟨5, 0, 0, 40⟩ = false := by decide

/-- C7 amended: rotation runs for a sampling cycle iff the cycle's UTC
timestamp reads minute 00:00 of the day — hence several times per boundary
when the interval is under a minute, and possibly never when every sample
of that day skips the 00:00 minute (e.g. the first sample after midnight
lands at 00:01). -/
theorem C7_rotation_on_first_minute :
    (∀ t : UtcTime, rotateTriggered t = true ↔ (t.hour = 0 ∧ t.minute = 0)) ∧
    (rotateTriggered ⟨6, 0, 1, 0⟩ = false ∧
      boundaryCrossed ⟨5, 23, 59, 0⟩ ⟨6, 0, 1, 0⟩ = true) := by
  constructor
  · intro t
    simp [rotateTriggered]
  · exact ⟨rfl, rfl⟩

/-! ## Log rotation (rotate_log, lines 764-795)

The age pass iterates `path.glob("*.zip")` and unlinks each archive whose
filename-embedded `%Y%m%d` date is before the midnight-floored cutoff
(parse failures are skipped).  The size pass then, while the folder
exceeds `max_mb`, unlinks `sorted(path.glob("*"), key=mtime)[0]` — the
first file, in a stable sort by modification time, of *all* top-level
files, with no name restriction.  The directory is modelled flat (the
files `glob("*")` sees); `dateCode` abstracts the parsed stem date as a
day index, `none` when `strptime` raises.  Both calls of an
immediate-succession pair see the same midnight-floored cutoff.
-/

/-- One file of the log directory. -/
structure LogFile where
  name : String
  dateCode : Option Nat
  mtime : Nat
  size : Nat
deriving DecidableEq, Repr

/-- `path.glob("*.zip")` membership: the file name ends in `.zip`
(checked on the character list). -/
def LogFile.isZip (f : LogFile) : Bool :=
  decide (f.name.data.reverse.take 4 = ['p', 'i', 'z', '.'])

/-- Age pass (lines 774-782): delete each `*.zip` file whose embedded date
is strictly before the cutoff day. -/
def agePass (cutoffDay : Nat) (files : List LogFile) : List LogFile :=
  files.filter (fun f =>
    !(f.isZip && match f.dateCode with
      | some d => decide (d < cutoffDay)
      | none => false))

/-- Total size of the directory in bytes (lines 784-789). -/
def totalSize (files : List LogFile) : Nat := (files.map LogFile.size).sum

/-- `folder_size_mb(path) > max_mb` (line 790), with `max_mb : float`. -/
def exceedsBudget (maxMb : ℚ) (files : List LogFile) : Prop :=
  maxMb * 1048576 < (totalSize files : ℚ)

instance (maxMb : ℚ) (files : List LogFile) : Decidable (exceedsBudget maxMb files) := by
  unfold exceedsBudget; infer_instance

/-- Delete `sorted(files, key=mtime)[0]`: the stable sort makes that the
first file attaining the minimal mtime. -/
def removeOldest : List LogFile → List LogFile
  | [] => []
  | f :: rest =>
    if rest.all (fun g => f.mtime ≤ g.mtime) then rest
    else f :: removeOldest rest

/-- The `while folder_size_mb(path) > max_mb` sweep (lines 790-795), with
explicit fuel; each iteration deletes exactly one file, so fuel equal to
the file count makes the fuel-0 base case unreachable with a non-empty
list. -/
def sizeSweepF (maxMb : ℚ) : Nat → List LogFile → List LogFile
  | 0, files => files
  | fuel + 1, files =>
    if exceedsBudget maxMb files then
      match files with
      | [] => files
      | _ :: _ => sizeSweepF maxMb fuel (removeOldest files)
    else files

def sizeSweep (maxMb : ℚ) (files : List LogFile) : List LogFile :=
  sizeSweepF maxMb files.length files

theorem sizeSweepF_zero (maxMb : ℚ) (files : List LogFile) :
    sizeSweepF maxMb 0 files = files := rfl

theorem sizeSweepF_succ (maxMb : ℚ) (fuel : Nat) (files : List LogFile) :
    sizeSweepF maxMb (fuel + 1) files =
      if exceedsBudget maxMb files then
        match files with
        | [] => files
        | _ :: _ => sizeSweepF maxMb fuel (removeOldest files)
      else files := rfl

/-- `rotate_log(path, retention_days, max_mb)`: age pass then size sweep. -/
def rotateLog (cutoffDay : Nat) (maxMb : ℚ) (files : List LogFile) : List LogFile :=
  sizeSweep maxMb (agePass cutoffDay files)

theorem removeOldest_length : ∀ files : List LogFile, files ≠ [] →
    (removeOldest files).length + 1 = files.length := by
  intro files
  induction files with
  | nil => intro h; exact absurd rfl h
  | cons f rest ih =>
    intro _
    rw [removeOldest]
    by_cases hall : rest.all (fun g => f.mtime ≤ g.mtime) = true
    · rw [if_pos hall]
      rfl
    · rw [if_neg hall]
      have hne : rest ≠ [] := by
        intro h
        subst h
        exact hall rfl
      rw [List.length_cons, ih hne]
      rfl

theorem removeOldest_sublist : ∀ files : List LogFile,
    (removeOldest files).Sublist files := by
  intro files
  induction files with
  | nil => exact List.Sublist.refl _
  | cons f rest ih =>
    rw [removeOldest]
    by_cases hall : rest.all (fun g => f.mtime ≤ g.mtime) = true
    · rw [if_pos hall]
      exact List.sublist_cons_self f rest
    · rw [if_neg hall]
      exact ih.cons₂ f

theorem sizeSweepF_sublist (maxMb : ℚ) : ∀ (fuel : Nat) (files : List LogFile),
    (sizeSweepF maxMb fuel files).Sublist files := by
  intro fuel
  induction fuel with
  | zero => intro files; exact List.Sublist.refl _
  | succ fuel ih =>
    intro files
    rw [sizeSweepF_succ]
    by_cases hex : exceedsBudget maxMb files
    · rw [if_pos hex]
      cases files with
      | nil => exact List.Sublist.refl _
      | cons f rest =>
        exact (ih _).trans (removeOldest_sublist (f :: rest))
    · rw [if_neg hex]

theorem sizeSweepF_post (maxMb : ℚ) : ∀ (fuel : Nat) (files : List LogFile),
    files.length ≤ fuel →
    ¬exceedsBudget maxMb (sizeSweepF maxMb fuel files) ∨
      sizeSweepF maxMb fuel files = [] := by
  intro fuel
  induction fuel with
  | zero =>
    intro files hlen
    right
    rw [sizeSweepF_zero]
    exact List.eq_nil_of_length_eq_zero (by omega)
  | succ fuel ih =>
    intro files hlen
    rw [sizeSweepF_succ]
    by_cases hex : exceedsBudget maxMb files
    · rw [if_pos hex]
      cases files with
      | nil => right; rfl
      | cons f rest =>
        have hlr : (removeOldest (f :: rest)).length + 1 = (f :: rest).length :=
          removeOldest_length _ (by intro h; exact List.noConfusion h)
        exact ih (removeOldest (f :: rest)) (by omega)
    · rw [if_neg hex]
      left
      exact hex

theorem sizeSweepF_of_not_exceeds (maxMb : ℚ) (fuel : Nat) (files : List LogFile)
    (h : ¬exceedsBudget maxMb files) : sizeSweepF maxMb fuel files = files := by
  cases fuel with
  | zero => rfl
  | succ fuel => rw [sizeSweepF_succ, if_neg h]

theorem sizeSweep_post (maxMb : ℚ) (files : List LogFile) :
    ¬exceedsBudget maxMb (sizeSweep maxMb files) ∨ sizeSweep maxMb files = [] :=
  sizeSweepF_post maxMb files.length files (Nat.le_refl _)

/-- C9: with the same midnight-floored cutoff and budget (an
immediate-succession pair of calls, no file added or modified in between),
a second `rotate_log` deletes nothing more. -/
theorem C9_rotate_log_idempotent (cutoffDay : Nat) (maxMb : ℚ)
    (files : List LogFile) :
    rotateLog cutoffDay maxMb (rotateLog cutoffDay maxMb files)
      = rotateLog cutoffDay maxMb files := by
  have hage : agePass cutoffDay (rotateLog cutoffDay maxMb files)
      = rotateLog cutoffDay maxMb files := by
    rw [agePass]
    apply List.filter_eq_self.2
    intro f hf
    have hfA : f ∈ agePass cutoffDay files := by
      have hsub : (rotateLog cutoffDay maxMb files).Sublist
          (agePass cutoffDay files) := sizeSweepF_sublist maxMb _ _
      exact hsub.mem hf
    rw [agePass] at hfA
    exact (List.mem_filter.1 hfA).2
  show sizeSweep maxMb (agePass cutoffDay (rotateLog cutoffDay maxMb files))
      = rotateLog cutoffDay maxMb files
  rw [hage]
  show sizeSweep maxMb (sizeSweep maxMb (agePass cutoffDay files))
      = sizeSweep maxMb (agePass cutoffDay files)
  rcases sizeSweep_post maxMb (agePass cutoffDay files) with h | h
  · rw [sizeSweep, sizeSweepF_of_not_exceeds maxMb _ _ h]
  · rw [h]
    rfl

/-- The active CSV log, as a directory entry: 2 MiB, arbitrary mtime. -/
def activeCsvFile : LogFile := ⟨"wifi_log.csv", none, 0, 2097152⟩

/-- C6 counterexample: a directory holding only the active `wifi_log.csv`
(2 MiB) with a 1 MB budget — the size sweep deletes the active log file,
refuting "only prior archive files are ever deleted". -/
theorem C6_counterexample_sweep_deletes_active_log :
    activeCsvFile.name = "wifi_log.csv" ∧
    activeCsvFile ∈ [activeCsvFile] ∧
    rotateLog 0 1 [activeCsvFile] = [] := by
  refine ⟨rfl, List.mem_cons_self _ _, ?_⟩
  have hage : agePass 0 [activeCsvFile] = [activeCsvFile] := by decide
  have hex : exceedsBudget 1 [activeCsvFile] := by
    rw [exceedsBudget]
    norm_num [totalSize, activeCsvFile]
  have hrm : removeOldest [activeCsvFile] = [] := by decide
  show sizeSweep 1 (agePass 0 [activeCsvFile]) = []
  rw [hage]
  show sizeSweepF 1 1 [activeCsvFile] = []
  rw [sizeSweepF_succ, if_pos hex]
  show sizeSweepF 1 0 (removeOldest [activeCsvFile]) = []
  rw [hrm]
  exact sizeSweepF_zero 1 []

/-- C6 amended: the age pass deletes only `*.zip` archives — any file it
removes has a name ending in `.zip`, so the active logs survive it — but
the size-based sweep deletes oldest files regardless of name and can
delete the active log files (see the counterexample). -/
theorem C6_age_pass_deletes_only_archives (cutoffDay : Nat)
    (files : List LogFile) (f : LogFile) (hmem : f ∈ files)
    (hgone : f ∉ agePass cutoffDay files) : f.isZip = true := by
  by_contra h
  apply hgone
  refine List.mem_filter.2 ⟨hmem, ?_⟩
  have hz : f.isZip = false := by
    cases hiz : f.isZip
    · rfl
    · exact absurd hiz h
  simp [hz]

/-- An aged archive file, as a directory entry. -/
def oldZipFile : LogFile := ⟨"wifi_log_20200101.zip", some 0, 0, 10⟩

/-- Witness for the amended C6: an aged archive is removed by the age pass
and is indeed a `.zip`. -/
theorem C6_age_pass_deletes_only_archives_witness :
    oldZipFile ∈ [oldZipFile] ∧
    oldZipFile ∉ agePass 100 [oldZipFile] ∧
    oldZipFile.isZip = true :=
  ⟨List.mem_cons_self _ _, by decide,
    C6_age_pass_deletes_only_archives 100 [oldZipFile] oldZipFile
      (List.mem_cons_self _ _) (by decide)⟩

/-! ## Channel congestion rule (run_health_check, lines 1848-1863)

`ch24` counts BSSIDs per 2.4 GHz channel from the flattened scan, as an
insertion-ordered dict; for each occupied channel `c` the loop sums the
counts over channels `c-2 .. c+2` and emits WARN `crowded_channel` at the
first window total `>= 8`, then breaks.
-/

/-- One flattened scan entry: the channel as `int(...)` parses it
(`none` when the string does not parse). -/
structure ScanItem where
  channel : Option ℤ
deriving DecidableEq, Repr

/-- `band_for_channel` (lines 698-710). -/
def bandForChannel : Option ℤ → String
  | none => "?"
  | some ch =>
    if ch ≤ 14 then "2.4"
    else if 32 ≤ ch ∧ ch ≤ 177 then "5"
    else if 180 ≤ ch then "6"
    else "?"

/-- `ch24[c] = ch24.get(c, 0) + 1` on the insertion-ordered dict. -/
def incrCh : List (ℤ × Nat) → ℤ → List (ℤ × Nat)
  | [], c => [(c, 1)]
  | (k, n) :: rest, c =>
    if k = c then (k, n + 1) :: rest else (k, n) :: incrCh rest c

/-- `ch24.get(c, 0)`. -/
def getCount : List (ℤ × Nat) → ℤ → Nat
  | [], _ => 0
  | (k, n) :: rest, c => if k = c then n else getCount rest c

/-- Lines 1848-1855: occupancy of each 2.4 GHz channel over the scan
(entries whose band is not "2.4" or whose channel fails to parse are
skipped). -/
def buildCh24 (items : List ScanItem) : List (ℤ × Nat) :=
  items.foldl (fun acc it =>
    if bandForChannel it.channel = "2.4" then
      match it.channel with
      | some c => incrCh acc c
      | none => acc
    else acc) []

/-- `sum(ch24.get(cc, 0) for cc in range(c-2, c+3))` (line 1860). -/
def windowSum (m : List (ℤ × Nat)) (c : ℤ) : Nat :=
  getCount m (c - 2) + getCount m (c - 1) + getCount m c +
    getCount m (c + 1) + getCount m (c + 2)

/-- Lines 1859-1863: `for c in ch24: ... break` — at most one issue, at
the first occupied channel whose window total reaches 8. -/
def crowdLoop (m : List (ℤ × Nat)) : List (ℤ × Nat) → List (Severity × IssueId)
  | [] => []
  | (c, _) :: rest =>
    if 8 ≤ windowSum m c then [(Severity.WARN, "crowded_channel")]
    else crowdLoop m rest

def crowdedIssues (items : List ScanItem) : List (Severity × IssueId) :=
  crowdLoop (buildCh24 items) (buildCh24 items)

theorem getCount_incrCh (acc : List (ℤ × Nat)) (c' c : ℤ) :
    getCount (incrCh acc c') c = getCount acc c + (if c' = c then 1 else 0) := by
  induction acc with
  | nil =>
    by_cases h : c' = c <;> simp [incrCh, getCount, h]
  | cons p rest ih =>
    obtain ⟨k, n⟩ := p
    by_cases hk : k = c'
    · subst hk
      rw [show incrCh ((k, n) :: rest) k = (k, n + 1) :: rest by simp [incrCh]]
      by_cases hc : k = c
      · subst hc; simp [getCount]
      · simp [getCount, hc, fun h : k = c => hc h]
    · rw [show incrCh ((k, n) :: rest) c' = (k, n) :: incrCh rest c' by
        simp [incrCh, hk]]
      by_cases hc : k = c
      · subst hc
        have hcc : ¬c' = k := fun h => hk h.symm
        simp [getCount, hcc]
      · simp [getCount, hc, ih]

theorem band24_channel_some {o : Option ℤ} (h : bandForChannel o = "2.4") :
    ∃ c, o = some c := by
  cases o with
  | none => exact absurd h (by simp [bandForChannel])
  | some c => exact ⟨c, rfl⟩

theorem getCount_buildCh24_aux (items : List ScanItem) :
    ∀ (acc : List (ℤ × Nat)) (c : ℤ),
      getCount (items.foldl (fun acc it =>
          if bandForChannel it.channel = "2.4" then
            match it.channel with
            | some c => incrCh acc c
            | none => acc
          else acc) acc) c =
        getCount acc c +
          items.countP
            (fun it => decide (bandForChannel it.channel = "2.4" ∧ it.channel = some c)) := by
  induction items with
  | nil => intro acc c; simp
  | cons it rest ih =>
    intro acc c
    rw [List.foldl_cons, List.countP_cons]
    by_cases hb : bandForChannel it.channel = "2.4"
    · rcases band24_channel_some hb with ⟨c0, hc0⟩
      have hb' : bandForChannel (some c0) = "2.4" := by rw [← hc0]; exact hb
      have hstep : (if bandForChannel it.channel = "2.4" then
            match it.channel with
            | some c => incrCh acc c
            | none => acc
          else acc) = incrCh acc c0 := by
        rw [if_pos hb, hc0]
      rw [hstep, ih, getCount_incrCh]
      by_cases hcc : c0 = c
      · subst hcc
        simp only [hc0, hb', if_pos rfl]
        simp
        omega
      · simp only [hc0, hb', if_neg hcc]
        simp [hcc]
    · have hstep : (if bandForChannel it.channel = "2.4" then
            match it.channel with
            | some c => incrCh acc c
            | none => acc
          else acc) = acc := if_neg hb
      rw [hstep, ih]
      simp [hb]

theorem crowdLoop_mem (m : List (ℤ × Nat)) : ∀ l : List (ℤ × Nat),
    ((Severity.WARN, ("crowded_channel" : IssueId)) ∈ crowdLoop m l ↔
      ∃ c ∈ l.map Prod.fst, 8 ≤ windowSum m c) := by
  intro l
  induction l with
  | nil => simp [crowdLoop]
  | cons p rest ih =>
    obtain ⟨c, n⟩ := p
    by_cases h : 8 ≤ windowSum m c
    · rw [show crowdLoop m ((c, n) :: rest)
          = [(Severity.WARN, "crowded_channel")] by simp [crowdLoop, h]]
      simp [h]
    · rw [show crowdLoop m ((c, n) :: rest) = crowdLoop m rest by
        simp [crowdLoop, h]]
      rw [ih]
      simp only [List.map_cons, List.mem_cons]
      constructor
      · rintro ⟨c', hc', hw⟩
        exact ⟨c', Or.inr hc', hw⟩
      · rintro ⟨c', hc' | hc', hw⟩
        · subst hc'; exact absurd hw h
        · exact ⟨c', hc', hw⟩

theorem crowdLoop_length (m : List (ℤ × Nat)) : ∀ l : List (ℤ × Nat),
    (crowdLoop m l).length ≤ 1 := by
  intro l
  induction l with
  | nil => simp [crowdLoop]
  | cons p rest ih =>
    obtain ⟨c, n⟩ := p
    by_cases h : 8 ≤ windowSum m c <;> simp [crowdLoop, h, ih]

theorem crowdLoop_sub (m : List (ℤ × Nat)) : ∀ l : List (ℤ × Nat),
    ∀ p ∈ crowdLoop m l, p = ((Severity.WARN, "crowded_channel") : Severity × IssueId) := by
  intro l
  induction l with
  | nil => intro p hp; simp [crowdLoop] at hp
  | cons q rest ih =>
    obtain ⟨c, n⟩ := q
    intro p hp
    by_cases h : 8 ≤ windowSum m c
    · rw [show crowdLoop m ((c, n) :: rest)
          = [(Severity.WARN, "crowded_channel")] by simp [crowdLoop, h]] at hp
      exact List.mem_singleton.1 hp
    · rw [show crowdLoop m ((c, n) :: rest) = crowdLoop m rest by
        simp [crowdLoop, h]] at hp
      exact ih p hp

/-- C8: `occupancy(c)` is the number of 2.4 GHz scan entries on channel
`c`; WARN `crowded_channel` is raised iff some occupied channel has window
total (channels `c-2..c+2`) at least 8, and at most once per run; 8 BSSIDs
all on channel 6 produce it, 7 do not. -/
theorem C8_crowded_channel_rule (items : List ScanItem) :
    (∀ c : ℤ, getCount (buildCh24 items) c =
      items.countP
        (fun it => decide (bandForChannel it.channel = "2.4" ∧ it.channel = some c))) ∧
    ((Severity.WARN, ("crowded_channel" : IssueId)) ∈ crowdedIssues items ↔
      ∃ c ∈ (buildCh24 items).map Prod.fst, 8 ≤ windowSum (buildCh24 items) c) ∧
    (crowdedIssues items).length ≤ 1 ∧
    (∀ p ∈ crowdedIssues items,
      p = ((Severity.WARN, "crowded_channel") : Severity × IssueId)) ∧
    crowdedIssues (List.replicate 8 ⟨some 6⟩) = [(Severity.WARN, "crowded_channel")] ∧
    crowdedIssues (List.replicate 7 ⟨some 6⟩) = [] := by
  refine ⟨?_, ?_, ?_, ?_, by decide, by decide⟩
  · intro c
    rw [buildCh24, getCount_buildCh24_aux]
    simp [getCount]
  · exact crowdLoop_mem (buildCh24 items) (buildCh24 items)
  · exact crowdLoop_length (buildCh24 items) (buildCh24 items)
  · exact crowdLoop_sub (buildCh24 items) (buildCh24 items)

/-- Witness for C8: the spec's 8-BSSIDs-on-channel-6 scenario. -/
theorem C8_crowded_channel_rule_witness :
    crowdedIssues (List.replicate 8 ⟨some 6⟩) = [(Severity.WARN, "crowded_channel")] :=
  (C8_crowded_channel_rule (List.replicate 8 ⟨some 6⟩)).2.2.2.2.1

/-! ## Threshold notifier (MonitorThread._check_thresholds, lines 977-1009)

Returns early when notifications are disabled; otherwise five independent
level-triggered checks.  The signal is a float — `not (sig != sig)` is the
NaN guard, embedded as `none`; losses and latencies are `None`-able. -/

structure NotifCfg where
  enabled : Bool
  signalThreshold : ℚ
  lossThreshold : ℤ
  latencyThreshold : ℚ
deriving DecidableEq, Repr

inductive Notif where
  | lowSignal
  | gwLoss
  | remLoss
  | gwLatency
  | remLatency
deriving DecidableEq, Repr

/-- Line 998: `if sig is not None and not (sig != sig) and sig < threshold`. -/
def signalNotif (cfg : NotifCfg) (sig : Option ℚ) : List Notif :=
  match sig with
  | some s => if s < cfg.signalThreshold then [Notif.lowSignal] else []
  | none => []

/-- Line 1001: `if gw_loss is not None and gw_loss > loss_threshold`. -/
def gwLossNotif (cfg : NotifCfg) (loss : Option ℤ) : List Notif :=
  match loss with
  | some l => if cfg.lossThreshold < l then [Notif.gwLoss] else []
  | none => []

/-- Line 1003. -/
def remLossNotif (cfg : NotifCfg) (loss : Option ℤ) : List Notif :=
  match loss with
  | some l => if cfg.lossThreshold < l then [Notif.remLoss] else []
  | none => []

/-- Line 1006. -/
def gwLatNotif (cfg : NotifCfg) (lat : Option ℚ) : List Notif :=
  match lat with
  | some a => if cfg.latencyThreshold < a then [Notif.gwLatency] else []
  | none => []

/-- Line 1008. -/
def remLatNotif (cfg : NotifCfg) (lat : Option ℚ) : List Notif :=
  match lat with
  | some a => if cfg.latencyThreshold < a then [Notif.remLatency] else []
  | none => []

/-- `_check_thresholds` (lines 977-1009): early return when notifications
are disabled (line 979), else the five independent checks. -/
def checkThresholds (cfg : NotifCfg) (sig : Option ℚ) (gwLoss remLoss : Option ℤ)
    (gwLat remLat : Option ℚ) : List Notif :=
  if !cfg.enabled then []
  else
    signalNotif cfg sig ++ gwLossNotif cfg gwLoss ++ remLossNotif cfg remLoss ++
      gwLatNotif cfg gwLat ++ remLatNotif cfg remLat

theorem signalNotif_cases {cfg : NotifCfg} {sig : Option ℚ} {n : Notif}
    (h : n ∈ signalNotif cfg sig) :
    n = Notif.lowSignal ∧ ∃ s, sig = some s ∧ s < cfg.signalThreshold := by
  cases sig with
  | none => simp [signalNotif] at h
  | some s =>
    rw [signalNotif] at h
    by_cases hc : s < cfg.signalThreshold
    · rw [if_pos hc] at h
      exact ⟨List.mem_singleton.1 h, s, rfl, hc⟩
    · rw [if_neg hc] at h
      exact absurd h (List.not_mem_nil n)

theorem gwLossNotif_cases {cfg : NotifCfg} {loss : Option ℤ} {n : Notif}
    (h : n ∈ gwLossNotif cfg loss) :
    n = Notif.gwLoss ∧ ∃ l, loss = some l ∧ cfg.lossThreshold < l := by
  cases loss with
  | none => simp [gwLossNotif] at h
  | some l =>
    rw [gwLossNotif] at h
    by_cases hc : cfg.lossThreshold < l
    · rw [if_pos hc] at h
      exact ⟨List.mem_singleton.1 h, l, rfl, hc⟩
    · rw [if_neg hc] at h
      exact absurd h (List.not_mem_nil n)

theorem remLossNotif_cases {cfg : NotifCfg} {loss : Option ℤ} {n : Notif}
    (h : n ∈ remLossNotif cfg loss) :
    n = Notif.remLoss ∧ ∃ l, loss = some l ∧ cfg.lossThreshold < l := by
  cases loss with
  | none => simp [remLossNotif] at h
  | some l =>
    rw [remLossNotif] at h
    by_cases hc : cfg.lossThreshold < l
    · rw [if_pos hc] at h
      exact ⟨List.mem_singleton.1 h, l, rfl, hc⟩
    · rw [if_neg hc] at h
      exact absurd h (List.not_mem_nil n)

theorem gwLatNotif_cases {cfg : NotifCfg} {lat : Option ℚ} {n : Notif}
    (h : n ∈ gwLatNotif cfg lat) :
    n = Notif.gwLatency ∧ ∃ a, lat = some a ∧ cfg.latencyThreshold < a := by
  cases lat with
  | none => simp [gwLatNotif] at h
  | some a =>
    rw [gwLatNotif] at h
    by_cases hc : cfg.latencyThreshold < a
    · rw [if_pos hc] at h
      exact ⟨List.mem_singleton.1 h, a, rfl, hc⟩
    · rw [if_neg hc] at h
      exact absurd h (List.not_mem_nil n)

theorem remLatNotif_cases {cfg : NotifCfg} {lat : Option ℚ} {n : Notif}
    (h : n ∈ remLatNotif cfg lat) :
    n = Notif.remLatency ∧ ∃ a, lat = some a ∧ cfg.latencyThreshold < a := by
  cases lat with
  | none => simp [remLatNotif] at h
  | some a =>
    rw [remLatNotif] at h
    by_cases hc : cfg.latencyThreshold < a
    · rw [if_pos hc] at h
      exact ⟨List.mem_singleton.1 h, a, rfl, hc⟩
    · rw [if_neg hc] at h
      exact absurd h (List.not_mem_nil n)

theorem mem_checkThresholds {cfg : NotifCfg} {sig : Option ℚ}
    {gwLoss remLoss : Option ℤ} {gwLat remLat : Option ℚ} {n : Notif}
    (h : n ∈ checkThresholds cfg sig gwLoss remLoss gwLat remLat) :
    cfg.enabled = true ∧
      (n ∈ signalNotif cfg sig ∨ n ∈ gwLossNotif cfg gwLoss ∨
        n ∈ remLossNotif cfg remLoss ∨ n ∈ gwLatNotif cfg gwLat ∨
        n ∈ remLatNotif cfg remLat) := by
  by_cases he : cfg.enabled
  · rw [checkThresholds, if_neg (by simp [he])] at h
    refine ⟨he, ?_⟩
    simpa [List.mem_append, or_assoc] using h
  · rw [checkThresholds, if_pos (by simp [he])] at h
    exact absurd h (List.not_mem_nil n)

/-- C10: the notifier fires nothing when disabled; a NaN signal fires no
signal notification and an absent loss/latency reading fires no
corresponding notification — every fired notification comes from a present
numeric reading crossing its threshold. -/
theorem C10_notifier_requires_present_readings (cfg : NotifCfg) (sig : Option ℚ)
    (gwLoss remLoss : Option ℤ) (gwLat remLat : Option ℚ) :
    (cfg.enabled = false →
      checkThresholds cfg sig gwLoss remLoss gwLat remLat = []) ∧
    (sig = none →
      Notif.lowSignal ∉ checkThresholds cfg sig gwLoss remLoss gwLat remLat) ∧
    (gwLoss = none →
      Notif.gwLoss ∉ checkThresholds cfg sig gwLoss remLoss gwLat remLat) ∧
    (remLoss = none →
      Notif.remLoss ∉ checkThresholds cfg sig gwLoss remLoss gwLat remLat) ∧
    (gwLat = none →
      Notif.gwLatency ∉ checkThresholds cfg sig gwLoss remLoss gwLat remLat) ∧
    (remLat = none →
      Notif.remLatency ∉ checkThresholds cfg sig gwLoss remLoss gwLat remLat) ∧
    (Notif.lowSignal ∈ checkThresholds cfg sig gwLoss remLoss gwLat remLat →
      ∃ s, sig = some s ∧ s < cfg.signalThreshold) ∧
    (Notif.gwLoss ∈ checkThresholds cfg sig gwLoss remLoss gwLat remLat →
      ∃ l, gwLoss = some l ∧ cfg.lossThreshold < l) ∧
    (Notif.remLoss ∈ checkThresholds cfg sig gwLoss remLoss gwLat remLat →
      ∃ l, remLoss = some l ∧ cfg.lossThreshold < l) ∧
    (Notif.gwLatency ∈ checkThresholds cfg sig gwLoss remLoss gwLat remLat →
      ∃ a, gwLat = some a ∧ cfg.latencyThreshold < a) ∧
    (Notif.remLatency ∈ checkThresholds cfg sig gwLoss remLoss gwLat remLat →
      ∃ a, remLat = some a ∧ cfg.latencyThreshold < a) := by
  have hsig : Notif.lowSignal ∈ checkThresholds cfg sig gwLoss remLoss gwLat remLat →
      ∃ s, sig = some s ∧ s < cfg.signalThreshold := by
    intro h
    rcases (mem_checkThresholds h).2 with h1 | h1 | h1 | h1 | h1
    · exact (signalNotif_cases h1).2
    · exact absurd (gwLossNotif_cases h1).1 (by intro hx; exact Notif.noConfusion hx)
    · exact absurd (remLossNotif_cases h1).1 (by intro hx; exact Notif.noConfusion hx)
    · exact absurd (gwLatNotif_cases h1).1 (by intro hx; exact Notif.noConfusion hx)
    · exact absurd (remLatNotif_cases h1).1 (by intro hx; exact Notif.noConfusion hx)
  have hgl : Notif.gwLoss ∈ checkThresholds cfg sig gwLoss remLoss gwLat remLat →
      ∃ l, gwLoss = some l ∧ cfg.lossThreshold < l := by
    intro h
    rcases (mem_checkThresholds h).2 with h1 | h1 | h1 | h1 | h1
    · exact absurd (signalNotif_cases h1).1 (by intro hx; exact Notif.noConfusion hx)
    · exact (gwLossNotif_cases h1).2
    · exact absurd (remLossNotif_cases h1).1 (by intro hx; exact Notif.noConfusion hx)
    · exact absurd (gwLatNotif_cases h1).1 (by intro hx; exact Notif.noConfusion hx)
    · exact absurd (remLatNotif_cases h1).1 (by intro hx; exact Notif.noConfusion hx)
  have hrl : Notif.remLoss ∈ checkThresholds cfg sig gwLoss remLoss gwLat remLat →
      ∃ l, remLoss = some l ∧ cfg.lossThreshold < l := by
    intro h
    rcases (mem_checkThresholds h).2 with h1 | h1 | h1 | h1 | h1
    · exact absurd (signalNotif_cases h1).1 (by intro hx; exact Notif.noConfusion hx)
    · exact absurd (gwLossNotif_cases h1).1 (by intro hx; exact Notif.noConfusion hx)
    · exact (remLossNotif_cases h1).2
    · exact absurd (gwLatNotif_cases h1).1 (by intro hx; exact Notif.noConfusion hx)
    · exact absurd (remLatNotif_cases h1).1 (by intro hx; exact Notif.noConfusion hx)
  have hga : Notif.gwLatency ∈ checkThresholds cfg sig gwLoss remLoss gwLat remLat →
      ∃ a, gwLat = some a ∧ cfg.latencyThreshold < a := by
    intro h
    rcases (mem_checkThresholds h).2 with h1 | h1 | h1 | h1 | h1
    · exact absurd (signalNotif_cases h1).1 (by intro hx; exact Notif.noConfusion hx)
    · exact absurd (gwLossNotif_cases h1).1 (by intro hx; exact Notif.noConfusion hx)
    · exact absurd (remLossNotif_cases h1).1 (by intro hx; exact Notif.noConfusion hx)
    · exact (gwLatNotif_cases h1).2
    · exact absurd (remLatNotif_cases h1).1 (by intro hx; exact Notif.noConfusion hx)
  have hra : Notif.remLatency ∈ checkThresholds cfg sig gwLoss remLoss gwLat remLat →
      ∃ a, remLat = some a ∧ cfg.latencyThreshold < a := by
    intro h
    rcases (mem_checkThresholds h).2 with h1 | h1 | h1 | h1 | h1
    · exact absurd (signalNotif_cases h1).1 (by intro hx; exact Notif.noConfusion hx)
    · exact absurd (gwLossNotif_cases h1).1 (by intro hx; exact Notif.noConfusion hx)
    · exact absurd (remLossNotif_cases h1).1 (by intro hx; exact Notif.noConfusion hx)
    · exact absurd (gwLatNotif_cases h1).1 (by intro hx; exact Notif.noConfusion hx)
    · exact (remLatNotif_cases h1).2
  refine ⟨?_, ?_, ?_, ?_, ?_, ?_, hsig, hgl, hrl, hga, hra⟩
  · intro he
    rw [checkThresholds, if_pos (by simp [he])]
  · intro hs hmem
    rcases hsig hmem with ⟨s, hs', _⟩
    rw [hs] at hs'
    exact Option.noConfusion hs'
  · intro hs hmem
    rcases hgl hmem with ⟨l, hs', _⟩
    rw [hs] at hs'
    exact Option.noConfusion hs'
  · intro hs hmem
    rcases hrl hmem with ⟨l, hs', _⟩
    rw [hs] at hs'
    exact Option.noConfusion hs'
  · intro hs hmem
    rcases hga hmem with ⟨a, hs', _⟩
    rw [hs] at hs'
    exact Option.noConfusion hs'
  · intro hs hmem
    rcases hra hmem with ⟨a, hs', _⟩
    rw [hs] at hs'
    exact Option.noConfusion hs'

/-- Witness for C10: disabled notifier with all readings unknown fires
nothing. -/
theorem C10_notifier_requires_present_readings_witness :
    (⟨false, 35, 20, 200⟩ : NotifCfg).enabled = false ∧
    checkThresholds ⟨false, 35, 20, 200⟩ none none none none none = [] :=
  ⟨rfl, (C10_notifier_requires_present_readings ⟨false, 35, 20, 200⟩
    none none none none none).1 rfl⟩

end WifiAnalyzer
